import Mathlib

/-!
# Verification of `scripts/merge_rss.py`

A shallow embedding of the RSS merge pipeline in `scripts/merge_rss.py`:
fetch results are modelled as already-retrieved documents, the XML layer is
modelled at the `xml.etree.ElementTree` element level, and the standard
library routines the script calls (`email.utils.parsedate_to_datetime`,
`email.utils.formatdate`, `datetime.fromisoformat`, `hashlib.sha1`) are
embedded as executable Lean functions transcribed from their CPython
sources.  Machine floats never matter here (all timestamps the script
compares are integral seconds), so epoch times are `Int`.

The local timezone relevant to naive `datetime.timestamp()` calls is
modelled as UTC (the script is a CI batch job; only date strings carrying
no timezone hit that path, and none of the verified claims depends on the
local offset).
-/

namespace MergeRss

/-! ## Python string primitives (ASCII model) -/

/-- Whitespace for `str.strip()` / `str.split()` (ASCII subset of Python's). -/
def isPySpace (c : Char) : Bool :=
  c == ' ' || c == '\t' || c == '\n' || c == '\r' || c == '\x0b' || c == '\x0c'

/-- `str.strip()` on a character list: drop whitespace from both ends. -/
def stripL (l : List Char) : List Char :=
  ((l.dropWhile isPySpace).reverse.dropWhile isPySpace).reverse

/-- Python `s.strip()`. -/
def pyStrip (s : String) : String := ⟨stripL s.data⟩

/-- `needle in hay` (substring containment) on character lists. -/
def containsL (needle : List Char) : List Char → Bool
  | [] => needle.isEmpty
  | c :: t => needle.isPrefixOf (c :: t) || containsL needle t

/-- Python `needle in hay` for strings. -/
def pyContains (hay needle : String) : Bool := containsL needle.data hay.data

/-- Accumulator for `str.split()` with no separator: split on whitespace runs. -/
def splitWSAux (cur : List Char) : List Char → List (List Char)
  | [] => if cur.isEmpty then [] else [cur.reverse]
  | c :: cs =>
    if isPySpace c then
      if cur.isEmpty then splitWSAux [] cs else cur.reverse :: splitWSAux [] cs
    else splitWSAux (c :: cur) cs

/-- Python `s.split()` (whitespace runs, no empty tokens). -/
def pySplitWS (s : String) : List String :=
  (splitWSAux [] s.data).map fun l => ⟨l⟩

/-- `s.split(sep)` on character lists (keeps empty fields, `"" → [""]`). -/
def splitOnL (sep : Char) : List Char → List (List Char)
  | [] => [[]]
  | c :: cs =>
    if c = sep then [] :: splitOnL sep cs
    else
      match splitOnL sep cs with
      | [] => [[c]]
      | g :: gs => (c :: g) :: gs

/-- Python `s.split(sep)` for a single-character separator. -/
def pySplitOn (sep : Char) (s : String) : List String :=
  (splitOnL sep s.data).map fun l => ⟨l⟩

/-- Python `s.find(ch)`: index of first occurrence, `-1` if absent. -/
def pyFind (s : String) (ch : Char) : Int :=
  match s.data.findIdx? (fun c => c == ch) with
  | some i => (i : Int)
  | none => -1

/-- Python `s.rfind(ch)`: index of last occurrence, `-1` if absent. -/
def pyRfind (s : String) (ch : Char) : Int :=
  match s.data.reverse.findIdx? (fun c => c == ch) with
  | some i => (s.data.length : Int) - 1 - (i : Int)
  | none => -1

/-- Python `s.endswith(ch)` for a single character. -/
def pyEndsWith (s : String) (ch : Char) : Bool := s.data.getLast? == some ch

/-- Python `s.lower()` (ASCII). -/
def pyLower (s : String) : String := ⟨s.data.map Char.toLower⟩

/-- Python `s.upper()` (ASCII). -/
def pyUpper (s : String) : String := ⟨s.data.map Char.toUpper⟩

/-- Digits accumulator for `int()`. -/
def digitsToNat (acc : Nat) : List Char → Option Nat
  | [] => some acc
  | c :: cs => if c.isDigit then digitsToNat (acc * 10 + (c.toNat - 48)) cs else none

/-- Python `int(s)`: optional surrounding whitespace, optional sign, digits. -/
def pyToInt (s : String) : Option Int :=
  match stripL s.data with
  | [] => none
  | '+' :: ds => if ds.isEmpty then none else (digitsToNat 0 ds).map fun n => (n : Int)
  | '-' :: ds => if ds.isEmpty then none else (digitsToNat 0 ds).map fun n => -(n : Int)
  | ds => (digitsToNat 0 ds).map fun n => (n : Int)

/-- Python `s.replace("Z", "+00:00")` on character lists. -/
def replaceZL : List Char → List Char
  | [] => []
  | c :: cs =>
    if c = 'Z' then '+' :: '0' :: '0' :: ':' :: '0' :: '0' :: replaceZL cs
    else c :: replaceZL cs

/-- Python `s.replace("Z", "+00:00")`. -/
def pyReplaceZ (s : String) : String := ⟨replaceZL s.data⟩

/-! ## Proleptic Gregorian calendar (the arithmetic behind `datetime`/`time.gmtime`) -/

/-- Days since 1970-01-01 of a civil date (Hinnant's `days_from_civil`). -/
def daysFromCivil (y0 m d : Int) : Int :=
  let y := if m ≤ 2 then y0 - 1 else y0
  let era := Int.fdiv y 400
  let yoe := y - era * 400
  let doy := (153 * (if m > 2 then m - 3 else m + 9) + 2) / 5 + d - 1
  let doe := yoe * 365 + yoe / 4 - yoe / 100 + doy
  era * 146097 + doe - 719468

/-- Civil date `(y, m, d)` from days since 1970-01-01 (Hinnant's `civil_from_days`). -/
def civilFromDays (z0 : Int) : Int × Int × Int :=
  let z := z0 + 719468
  let era := Int.fdiv z 146097
  let doe := z - era * 146097
  let yoe := (doe - doe / 1460 + doe / 36524 - doe / 146096) / 365
  let y := yoe + era * 400
  let doy := doe - (365 * yoe + yoe / 4 - yoe / 100)
  let mp := (5 * doy + 2) / 153
  let d := doy - (153 * mp + 2) / 5 + 1
  let m := mp + (if mp < 10 then 3 else -9)
  (y + (if m ≤ 2 then 1 else 0), m, d)

/-- Leap year predicate of the proleptic Gregorian calendar. -/
def isLeap (y : Int) : Bool := (y.emod 4 == 0 && y.emod 100 != 0) || y.emod 400 == 0

/-- Length of a month, as `datetime` validates day-of-month. -/
def daysInMonth (y m : Int) : Int :=
  if m == 2 then (if isLeap y then 29 else 28)
  else if m == 4 || m == 6 || m == 9 || m == 11 then 30
  else 31

/-- The range check `datetime.datetime(y, mo, d, h, mi, s)` performs. -/
def datetimeValid (y mo d h mi s : Int) : Bool :=
  1 ≤ y && y ≤ 9999 && 1 ≤ mo && mo ≤ 12 && 1 ≤ d && d ≤ daysInMonth y mo &&
  0 ≤ h && h ≤ 23 && 0 ≤ mi && mi ≤ 59 && 0 ≤ s && s ≤ 59

/-- Epoch seconds of a UTC civil date-time (`calendar.timegm`). -/
def timegm (y mo d h mi s : Int) : Int :=
  daysFromCivil y mo d * 86400 + h * 3600 + mi * 60 + s

/-- English weekday abbreviations, Monday first (as `time.struct_tm.tm_wday`). -/
def dayAbbrs : List String := ["Mon", "Tue", "Wed", "Thu", "Fri", "Sat", "Sun"]

/-- English month abbreviations. -/
def monthAbbrs : List String :=
  ["Jan", "Feb", "Mar", "Apr", "May", "Jun", "Jul", "Aug", "Sep", "Oct", "Nov", "Dec"]

/-- Zero-padded two-digit decimal field (arguments are in range in every use). -/
def pad2 (n : Int) : String :=
  if n < 10 then "0" ++ toString n else toString n

/-- Zero-padded four-digit decimal field. -/
def pad4 (n : Int) : String :=
  if n < 10 then "000" ++ toString n
  else if n < 100 then "00" ++ toString n
  else if n < 1000 then "0" ++ toString n
  else toString n

/-- `email.utils.formatdate(t, usegmt=True)`: RFC 2822 date string in GMT. -/
def formatdate (t : Int) : String :=
  let days := Int.fdiv t 86400
  let rem := Int.fmod t 86400
  let ymd := civilFromDays days
  let wd := Int.fmod (days + 3) 7
  dayAbbrs.getD wd.toNat "Mon" ++ ", " ++ pad2 ymd.2.2 ++ " " ++
    monthAbbrs.getD (ymd.2.1 - 1).toNat "Jan" ++ " " ++ pad4 ymd.1 ++ " " ++
    pad2 (rem / 3600) ++ ":" ++ pad2 (rem / 60 % 60) ++ ":" ++ pad2 (rem % 60) ++ " GMT"

/-! ## `email._parseaddr._parsedate_tz` and `email.utils.parsedate_to_datetime`

Transcribed from the CPython source.  Exceptions escaping the stdlib parser
and `None` results are both modelled as `none`: the script's `as_epoch`
wraps the call in `try: ... except Exception: return 0.0`, so the two are
indistinguishable there. -/

/-- `email._parseaddr._monthnames`. -/
def monthnames : List String :=
  ["jan", "feb", "mar", "apr", "may", "jun", "jul", "aug", "sep", "oct", "nov", "dec",
   "january", "february", "march", "april", "may", "june", "july", "august",
   "september", "october", "november", "december"]

/-- `email._parseaddr._daynames`. -/
def daynames : List String := ["mon", "tue", "wed", "thu", "fri", "sat", "sun"]

/-- `email._parseaddr._timezones`. -/
def tzTable : List (String × Int) :=
  [("UT", 0), ("UTC", 0), ("GMT", 0), ("Z", 0),
   ("AST", -400), ("ADT", -300), ("EST", -500), ("EDT", -400),
   ("CST", -600), ("CDT", -500), ("MST", -700), ("MDT", -600),
   ("PST", -800), ("PDT", -700)]

/-- The `[dd, mm, yy, tm, tz] = data` tail of `_parsedate_tz`: resolves the
five tokens to `(year, month, day, hour, minute, second, tz offset seconds)`,
where the offset is `none` when the timezone is unknown or `-0000`. -/
def parsedateFields (dd0 mm0 yy0 tm0 tz0 : String) :
    Option (Int × Int × Int × Int × Int × Int × Option Int) :=
  if dd0 = "" || mm0 = "" || yy0 = "" then none else
  let mml := pyLower mm0
  let dm : Option (String × String) :=
    if monthnames.contains mml then some (dd0, mml)
    else
      let mm2 := pyLower dd0
      if monthnames.contains mm2 then some (mml, mm2) else none
  match dm with
  | none => none
  | some (dd1, mmName) =>
    let mmIdx : Int := (monthnames.findIdx (fun x => x == mmName) : Nat) + 1
    let mm : Int := if mmIdx > 12 then mmIdx - 12 else mmIdx
    let dd2 := if pyEndsWith dd1 ',' then (⟨dd1.data.dropLast⟩ : String) else dd1
    let yt := if pyFind yy0 ':' > 0 then (tm0, yy0) else (yy0, tm0)
    let yy1 := yt.1
    let tm1 := yt.2
    let yy2 := if pyEndsWith yy1 ',' then (⟨yy1.data.dropLast⟩ : String) else yy1
    if yy2 = "" then none else
    let ytz :=
      match yy2.data.head? with
      | some c => if !c.isDigit then (tz0, yy2) else (yy2, tz0)
      | none => (yy2, tz0)
    let yy3 := ytz.1
    let tz1 := ytz.2
    let tm2 := if pyEndsWith tm1 ',' then (⟨tm1.data.dropLast⟩ : String) else tm1
    let tparts := pySplitOn ':' tm2
    let hms : Option (String × String × String) :=
      match tparts with
      | [thh, tmm] => some (thh, tmm, "0")
      | [thh, tmm, tss] => some (thh, tmm, tss)
      | [only] =>
        if pyContains only "." then
          match pySplitOn '.' only with
          | [thh, tmm] => some (thh, tmm, "0")
          | [thh, tmm, tss] => some (thh, tmm, tss)
          | _ => none
        else none
      | _ => none
    match hms with
    | none => none
    | some (thh, tmm, tss) =>
      match pyToInt yy3, pyToInt dd2, pyToInt thh, pyToInt tmm, pyToInt tss with
      | some yyN, some ddN, some hhN, some miN, some ssN =>
        let yy : Int :=
          if yyN < 100 then (if yyN > 68 then yyN + 1900 else yyN + 2000) else yyN
        let tzU := pyUpper tz1
        let tzoffset : Option Int :=
          match tzTable.lookup tzU with
          | some v => some v
          | none =>
            match pyToInt tzU with
            | some v => if v == 0 && tzU.startsWith "-" then none else some v
            | none => none
        let tzSecs : Option Int :=
          tzoffset.map fun v =>
            if v == 0 then 0
            else if v < 0 then -(((-v) / 100) * 3600 + ((-v) % 100) * 60)
            else (v / 100) * 3600 + (v % 100) * 60
        some (yy, mm, ddN, hhN, miN, ssN, tzSecs)
      | _, _, _, _, _ => none

/-- `email._parseaddr._parsedate_tz`: tokenisation and field extraction. -/
def parsedate_tz (s : String) :
    Option (Int × Int × Int × Int × Int × Int × Option Int) :=
  if s = "" then none else
  let data0 := pySplitWS s
  if data0.isEmpty then none else
  let data1 :=
    match data0 with
    | [] => []
    | d0 :: rest =>
      if pyEndsWith d0 ',' || daynames.contains (pyLower d0) then rest
      else
        let i := pyRfind d0 ','
        if i ≥ 0 then (⟨d0.data.drop (i.toNat + 1)⟩ : String) :: rest else d0 :: rest
  let data2 :=
    if data1.length = 3 then
      match data1 with
      | d0 :: rest =>
        let stuff := pySplitOn '-' d0
        if stuff.length = 3 then stuff ++ rest else data1
      | [] => data1
    else data1
  let data3 :=
    if data2.length = 4 then
      match data2.getLast? with
      | some s3 =>
        let i :=
          let ip := pyFind s3 '+'
          if ip = -1 then pyFind s3 '-' else ip
        if i > 0 then
          data2.take 3 ++
            [(⟨s3.data.take i.toNat⟩ : String), (⟨s3.data.drop i.toNat⟩ : String)]
        else data2 ++ [""]
      | none => data2
    else data2
  if data3.length < 5 then none else
  match data3.take 5 with
  | [dd0, mm0, yy0, tm0, tz0] => parsedateFields dd0 mm0 yy0 tm0 tz0
  | _ => none

/-- `email.utils.parsedate_to_datetime(s).timestamp()` as an `Option`:
`none` covers both the `ValueError` raised on a `None` parse and the range
errors raised by the `datetime`/`timezone` constructors, all of which
`as_epoch` catches.  A naive result (unknown timezone) is interpreted with
the local timezone modelled as UTC. -/
def parsedate_epoch (s : String) : Option Int :=
  match parsedate_tz s with
  | none => none
  | some (y, mo, d, h, mi, sec, tzoff) =>
    if datetimeValid y mo d h mi sec then
      match tzoff with
      | none => some (timegm y mo d h mi sec)
      | some off =>
        if off.natAbs < 86400 then some (timegm y mo d h mi sec - off) else none
    else none

/-- `as_epoch` from `merge_rss.py`: RFC 2822 parse, `0.0` on any failure. -/
def as_epoch (s : String) : Int := (parsedate_epoch s).getD 0

/-! ## `datetime.fromisoformat(...).timestamp()`

Modelled for the extended ISO-8601 shapes
`YYYY-MM-DD[<sep>HH[:MM[:SS[.digits]]][±HH[:]MM[[:]SS]]]` (any single
separator character, as CPython allows).  Sub-second fractions are parsed
and discarded: the script immediately re-formats the timestamp through
`formatdate`, whose output has whole-second resolution.  Naive results use
the local timezone modelled as UTC. -/

/-- Read exactly `n` leading decimal digits, returning the value and the rest. -/
def takeDigitsExact : Nat → Nat → List Char → Option (Nat × List Char)
  | 0, acc, l => some (acc, l)
  | n + 1, acc, c :: l =>
    if c.isDigit then takeDigitsExact n (acc * 10 + (c.toNat - 48)) l else none
  | _ + 1, _, [] => none

/-- Parse `HH[:MM[:SS[.digits]]]`, dropping the fraction. -/
def isoTime (l : List Char) : Option (Int × Int × Int × List Char) :=
  match takeDigitsExact 2 0 l with
  | none => none
  | some (hh, r1) =>
    match r1 with
    | ':' :: r2 =>
      match takeDigitsExact 2 0 r2 with
      | none => none
      | some (mi, r3) =>
        match r3 with
        | ':' :: r4 =>
          match takeDigitsExact 2 0 r4 with
          | none => none
          | some (ss, r5) =>
            match r5 with
            | '.' :: r6 =>
              let frac := r6.takeWhile Char.isDigit
              if frac.isEmpty then none
              else some ((hh : Int), (mi : Int), (ss : Int), r6.dropWhile Char.isDigit)
            | _ => some ((hh : Int), (mi : Int), (ss : Int), r5)
        | _ => some ((hh : Int), (mi : Int), 0, r3)
    | _ => some ((hh : Int), 0, 0, r1)

/-- Parse a trailing `±HH[:]MM` / `±HH` / `±HH:MM:SS` timezone offset in seconds. -/
def isoTz (l : List Char) : Option (Option Int) :=
  match l with
  | [] => some none
  | sign :: r0 =>
    if sign = '+' || sign = '-' then
      match takeDigitsExact 2 0 r0 with
      | none => none
      | some (hh, r1) =>
        let mmPart : Option (Nat × List Char) :=
          match r1 with
          | ':' :: r2 => takeDigitsExact 2 0 r2
          | [] => some (0, [])
          | r2 => takeDigitsExact 2 0 r2
        match mmPart with
        | none => none
        | some (mi, r3) =>
          let ssPart : Option (Nat × List Char) :=
            match r3 with
            | ':' :: r4 => takeDigitsExact 2 0 r4
            | [] => some (0, [])
            | r4 => takeDigitsExact 2 0 r4
          match ssPart with
          | none => none
          | some (ss, r5) =>
            if r5.isEmpty then
              let mag : Int := (hh : Int) * 3600 + (mi : Int) * 60 + (ss : Int)
              some (some (if sign = '-' then -mag else mag))
            else none
    else none

/-- `datetime.fromisoformat(s).timestamp()`, `none` on a `ValueError`. -/
def isoEpoch (s : String) : Option Int :=
  match takeDigitsExact 4 0 s.data with
  | none => none
  | some (y, l1) =>
    match l1 with
    | '-' :: l2 =>
      match takeDigitsExact 2 0 l2 with
      | none => none
      | some (mo, l3) =>
        match l3 with
        | '-' :: l4 =>
          match takeDigitsExact 2 0 l4 with
          | none => none
          | some (d, l5) =>
            let finish : Int → Int → Int → Option Int → Option Int :=
              fun hh mi ss tz =>
                if datetimeValid (y : Int) (mo : Int) (d : Int) hh mi ss then
                  match tz with
                  | none => some (timegm (y : Int) (mo : Int) (d : Int) hh mi ss)
                  | some off =>
                    if off.natAbs < 86400 then
                      some (timegm (y : Int) (mo : Int) (d : Int) hh mi ss - off)
                    else none
                else none
            match l5 with
            | [] => finish 0 0 0 none
            | _sep :: l6 =>
              match isoTime l6 with
              | none => none
              | some (hh, mi, ss, l7) =>
                match isoTz l7 with
                | none => none
                | some tz => finish hh mi ss tz
        | _ => none
    | _ => none

/-! ## `hashlib.sha1(...).hexdigest()`

A byte-level SHA-1, words as `Nat` reduced mod `2^32`. -/

/-- `2^32`. -/
def M32 : Nat := 4294967296

/-- Rotate a 32-bit word left by `n` (for `x < 2^32`, `n ≤ 32`). -/
def rotl (n x : Nat) : Nat := (x * 2 ^ n) % M32 + x / 2 ^ (32 - n)

/-- SHA-1 round function, selected by round index. -/
def sha1F (i b c d : Nat) : Nat :=
  if i < 20 then Nat.lor (Nat.land b c) (Nat.land (4294967295 - b) d)
  else if i < 40 then Nat.xor (Nat.xor b c) d
  else if i < 60 then Nat.lor (Nat.lor (Nat.land b c) (Nat.land b d)) (Nat.land c d)
  else Nat.xor (Nat.xor b c) d

/-- SHA-1 round constants, selected by round index. -/
def sha1K (i : Nat) : Nat :=
  if i < 20 then 0x5A827999
  else if i < 40 then 0x6ED9EBA1
  else if i < 60 then 0x8F1BBCDC
  else 0xCA62C1D6

/-- Big-endian 32-bit words from a byte list (length a multiple of 4). -/
def bytesToWords : List Nat → List Nat
  | a :: b :: c :: d :: rest => (((a * 256 + b) * 256 + c) * 256 + d) :: bytesToWords rest
  | _ => []

/-- Message-schedule expansion: `rev` holds the words produced so far, newest
first; `k` more words are appended. -/
def sha1Expand (rev : List Nat) : Nat → List Nat
  | 0 => rev.reverse
  | k + 1 =>
    let w := rotl 1 (Nat.xor (Nat.xor (rev.getD 2 0) (rev.getD 7 0))
      (Nat.xor (rev.getD 13 0) (rev.getD 15 0)))
    sha1Expand (w :: rev) k

/-- One SHA-1 round: state `(a, b, c, d, e)` updated with `(index, word)`. -/
def sha1Round (st : Nat × Nat × Nat × Nat × Nat) (iw : Nat × Nat) :
    Nat × Nat × Nat × Nat × Nat :=
  let t := (rotl 5 st.1 + sha1F iw.1 st.2.1 st.2.2.1 st.2.2.2.1 +
    st.2.2.2.2 + sha1K iw.1 + iw.2) % M32
  (t, st.1, rotl 30 st.2.1, st.2.2.1, st.2.2.2.1)

/-- Compress one 64-byte block into the running hash state. -/
def sha1Block (h : Nat × Nat × Nat × Nat × Nat) (block : List Nat) :
    Nat × Nat × Nat × Nat × Nat :=
  let w := sha1Expand ((bytesToWords block).reverse) 64
  let s := ((List.range 80).zip w).foldl sha1Round h
  ((h.1 + s.1) % M32, (h.2.1 + s.2.1) % M32, (h.2.2.1 + s.2.2.1) % M32,
   (h.2.2.2.1 + s.2.2.2.1) % M32, (h.2.2.2.2 + s.2.2.2.2) % M32)

/-- Split a byte list into 64-byte chunks (`cur` is the reversed current chunk,
the counter is the remaining capacity of the current chunk). -/
def chunksAux : Nat → List Nat → List Nat → List (List Nat)
  | _, cur, [] => [cur.reverse]
  | 0, cur, x :: rest => cur.reverse :: chunksAux 63 [x] rest
  | n + 1, cur, x :: rest => chunksAux n (x :: cur) rest

/-- Big-endian 8-byte encoding of a length. -/
def be8 (n : Nat) : List Nat :=
  [n / 2 ^ 56 % 256, n / 2 ^ 48 % 256, n / 2 ^ 40 % 256, n / 2 ^ 32 % 256,
   n / 2 ^ 24 % 256, n / 2 ^ 16 % 256, n / 2 ^ 8 % 256, n % 256]

/-- SHA-1 padding: `0x80`, zeros to 56 mod 64, then the bit length. -/
def sha1Pad (msg : List Nat) : List Nat :=
  msg ++ [128] ++ List.replicate ((119 - msg.length % 64) % 64) 0 ++ be8 (msg.length * 8)

/-- Lowercase hex digit. -/
def hexDigit (n : Nat) : Char :=
  if n < 10 then Char.ofNat (48 + n) else Char.ofNat (87 + n)

/-- Eight-hex-digit rendering of a 32-bit word. -/
def hex8 (n : Nat) : String :=
  ⟨(List.range 8).map fun i => hexDigit (n / 2 ^ (4 * (7 - i)) % 16)⟩

/-- `hashlib.sha1(bytes).hexdigest()`. -/
def sha1Hex (msg : List Nat) : String :=
  let p := sha1Pad msg
  let h := (match p with
    | [] => []
    | x :: rest => chunksAux 63 [x] rest).foldl sha1Block
    (0x67452301, 0xEFCDAB89, 0x98BADCFE, 0x10325476, 0xC3D2E1F0)
  hex8 h.1 ++ hex8 h.2.1 ++ hex8 h.2.2.1 ++ hex8 h.2.2.2.1 ++ hex8 h.2.2.2.2

/-- UTF-8 encoding of one character. -/
def utf8Char (c : Char) : List Nat :=
  let n := c.toNat
  if n < 128 then [n]
  else if n < 2048 then [192 + n / 64, 128 + n % 64]
  else if n < 65536 then [224 + n / 4096, 128 + n / 64 % 64, 128 + n % 64]
  else [240 + n / 262144, 128 + n / 4096 % 64, 128 + n / 64 % 64, 128 + n % 64]

/-- `s.encode("utf-8")` as a byte list (Lean `Char` excludes surrogates, so
the `errors="ignore"` branch never fires). -/
def utf8Bytes (s : String) : List Nat := s.data.flatMap utf8Char

/-! ## `xml.etree.ElementTree` element model

`ET.fromstring` either fails (`ET.ParseError`) or yields an element tree;
the script's inputs are modelled at that level, a failed parse as `none`.
Namespaced tags carry the `\x7buri\x7dlocal` form ElementTree uses. -/

/-- An ElementTree element: tag, attribute dictionary, text, child list. -/
inductive XmlTree where
  | elem (tag : String) (attrs : List (String × String)) (text : Option String)
      (children : List XmlTree)

/-- Element tag. -/
def XmlTree.tag : XmlTree → String
  | .elem t _ _ _ => t

/-- Element attribute dictionary. -/
def XmlTree.attrs : XmlTree → List (String × String)
  | .elem _ a _ _ => a

/-- Element text. -/
def XmlTree.text : XmlTree → Option String
  | .elem _ _ tx _ => tx

/-- Element children. -/
def XmlTree.children : XmlTree → List XmlTree
  | .elem _ _ _ c => c

/-- `elem.find(tag)` / `elem.find("./tag")`: first direct child with the tag. -/
def findChild (t : XmlTree) (tag : String) : Option XmlTree :=
  t.children.find? fun c => c.tag == tag

/-- `elem.findall("./tag")`: direct children with the tag, in document order. -/
def childrenWithTag (t : XmlTree) (tag : String) : List XmlTree :=
  t.children.filter fun c => c.tag == tag

/-- `(elem.findtext(tag) or "")`: text of the first matching child, with both a
missing child and missing text collapsing to `""` exactly as the script's
`or ""` does. -/
def findtextOr (t : XmlTree) (tag : String) : String :=
  match findChild t tag with
  | none => ""
  | some c => c.text.getD ""

mutual

/-- `elem.findall(".//tag")`: all proper descendants with the tag, in document
order (a matching element precedes matches inside it). -/
def descTagged (tag : String) : XmlTree → List XmlTree
  | .elem _ _ _ cs => descTaggedL tag cs

/-- `descTagged` over a sibling list. -/
def descTaggedL (tag : String) : List XmlTree → List XmlTree
  | [] => []
  | c :: cs => (if c.tag = tag then [c] else []) ++ descTagged tag c ++ descTaggedL tag cs

end

/-- The Atom namespace prefix on tags. -/
def atomTag (local_ : String) : String :=
  "\x7bhttp://www.w3.org/2005/Atom\x7d" ++ local_

/-! ## `parse_rss` -/

/-- A normalized feed item, the dict
`{title, link, pubDate, description, guid}` built by `parse_rss`. -/
structure Item where
  title : String
  link : String
  pubDate : String
  description : String
  guid : String
deriving DecidableEq

/-- The one exception `parse_rss` itself can raise: `None.strip()` on an Atom
`link` element carrying no `href` attribute. -/
inductive PyErr where
  | attributeError
deriving DecidableEq

/-- `(link_el.get("href") if link_el is not None else "").strip()`: a missing
element yields `""`, a missing `href` attribute makes `.get` return `None`
and `.strip()` raise `AttributeError`. -/
def atomLink (entry : XmlTree) : Except PyErr String :=
  match findChild entry (atomTag "link") with
  | none => .ok ""
  | some el =>
    match el.attrs.lookup "href" with
    | none => .error .attributeError
    | some h => .ok (pyStrip h)

/-- The crude ISO-8601 → RFC 2822 conversion applied to an Atom `updated`
string; on any exception the raw string is kept. -/
def atomPub (updated : String) : String :=
  match isoEpoch (pyReplaceZ updated) with
  | some ts => formatdate ts
  | none => updated

/-- One Atom `entry` element mapped to an RSS-like `Item`. -/
def atomEntryItem (entry : XmlTree) : Except PyErr Item :=
  let title := pyStrip (findtextOr entry (atomTag "title"))
  let updated := pyStrip (findtextOr entry (atomTag "updated"))
  let summary := pyStrip (findtextOr entry (atomTag "summary"))
  match atomLink entry with
  | .error e => .error e
  | .ok link =>
    .ok { title := title, link := link, pubDate := atomPub updated,
          description := summary, guid := if link ≠ "" then link else title ++ updated }

/-- One RSS `item` element mapped to an `Item`; `now` is the wall-clock time
substituted when the trimmed `pubDate` text is empty.  Note the `guid`
fallback concatenates the *raw* trimmed `pubDate`, read before the
substitution. -/
def rssItemOf (now : Int) (it : XmlTree) : Item :=
  let title := pyStrip (findtextOr it "title")
  let link := pyStrip (findtextOr it "link")
  let pub := pyStrip (findtextOr it "pubDate")
  let desc := pyStrip (findtextOr it "description")
  let g := pyStrip (findtextOr it "guid")
  { title := title, link := link,
    pubDate := if pub = "" then formatdate now else pub,
    description := desc,
    guid := if g ≠ "" then g else if link ≠ "" then link else title ++ pub }

/-- `parse_rss`: `none` models an `ET.ParseError` (caught, empty result); an
RSS 2.0 document maps its `channel/item` elements; otherwise every Atom
`entry` descendant is mapped, and an `AttributeError` from a href-less
`link` propagates to the caller. -/
def parse_rss (now : Int) (doc : Option XmlTree) : Except PyErr (List Item) :=
  match doc with
  | none => .ok []
  | some root =>
    match findChild root "channel" with
    | some chan => .ok ((childrenWithTag chan "item").map (rssItemOf now))
    | none => (descTagged (atomTag "entry") root).mapM atomEntryItem

/-! ## `main`: collection, dedup+annotation, sort, cap -/

/-- `MAX_ITEMS` from the script's configuration block. -/
def MAX_ITEMS : Nat := 1000

/-- `build_guid_key`: SHA-1 hex digest of `guid or link or title + pubDate`
(Python's falsy chain on the item dict, whose keys are always present). -/
def build_guid_key (it : Item) : String :=
  sha1Hex (utf8Bytes
    (if it.guid ≠ "" then it.guid
     else if it.link ≠ "" then it.link
     else it.title ++ it.pubDate))

/-- The source-marker annotation applied to a description inside the dedup
loop: strip, then append `(Source: GlobeNewswire)` unless a `(Source:`
marker is already present. -/
def annotateDesc (d : String) : String :=
  let desc := pyStrip d
  if pyContains desc "(Source:" then desc
  else if desc ≠ "" then desc ++ "\n(Source: GlobeNewswire)"
  else "(Source: GlobeNewswire)"

/-- Annotation lifted to an item (`it["description"] = desc`). -/
def annotateItem (it : Item) : Item :=
  { it with description := annotateDesc it.description }

/-- The `seen`/`unique` dedup loop of `main` (lines 133–149): first occurrence
of each `build_guid_key` survives, annotated; later occurrences are skipped.
`seen` is the set of keys already taken. -/
def dedupAnnotate (seen : List String) : List Item → List Item
  | [] => []
  | it :: rest =>
    let key := build_guid_key it
    if seen.contains key then dedupAnnotate seen rest
    else annotateItem it :: dedupAnnotate (key :: seen) rest

/-- The sort key comparison of `unique.sort(key=..., reverse=True)`: `a`
precedes `b` when `a`'s epoch is at least `b`'s (descending). -/
def itemLE (a b : Item) : Bool := as_epoch b.pubDate ≤ as_epoch a.pubDate

/-- The stable descending sort `unique.sort(key=lambda x: as_epoch(...),
reverse=True)`.  Python's sort is stable and `reverse=True` keeps equal keys
in list order, which is exactly `mergeSort` with this comparison. -/
def sortItems (l : List Item) : List Item := l.mergeSort itemLE

/-- One configured feed as `main`'s loop observes it: the fetch raised
(`URLError`/`HTTPError`), or it returned a document whose `ET.fromstring`
outcome is `doc`. -/
inductive FeedResult where
  | fetchFailure
  | fetched (doc : Option XmlTree)

/-- The items one feed contributes to `all_items`: nothing when the fetch
raised, nothing when `parse_rss` raised (the blanket `except Exception`),
otherwise the parsed items. -/
def feedItems (now : Int) : FeedResult → List Item
  | .fetchFailure => []
  | .fetched doc =>
    match parse_rss now doc with
    | .ok its => its
    | .error _ => []

/-- `all_items`: concatenation over the configured feed order. -/
def allItems (now : Int) (feeds : List FeedResult) : List Item :=
  (feeds.map (feedItems now)).flatten

/-- The final merged item list (`unique` after dedup, sort, truncation): what
`main` serializes one `<item>` per entry. -/
def mergedItems (now : Int) (feeds : List FeedResult) : List Item :=
  (sortItems (dedupAnnotate [] (allItems now feeds))).take MAX_ITEMS

/-! ## Helper lemmas -/

/-- Annotation touches only the description, never the dedup key. -/
theorem build_guid_key_annotateItem (it : Item) :
    build_guid_key (annotateItem it) = build_guid_key it := by
  cases it; rfl

/-- The key-class characterization of the dedup loop: with `seen` already
taken, the survivors of key `k` are the annotated first occurrence of `k` in
the input — or nothing when `k` was already seen. -/
theorem dedupAnnotate_filter_key (k : String) :
    ∀ (l : List Item) (seen : List String),
    (dedupAnnotate seen l).filter (fun y => build_guid_key y == k)
    = if seen.contains k then []
      else ((l.filter fun x => build_guid_key x == k).take 1).map annotateItem := by
  intro l
  induction l with
  | nil =>
    intro seen
    simp only [dedupAnnotate, List.filter_nil, List.take_nil, List.map_nil, ite_self]
  | cons it rest ih =>
    intro seen
    simp only [dedupAnnotate]
    by_cases hk : seen.contains (build_guid_key it) = true
    · rw [if_pos hk, ih seen]
      by_cases hsk : seen.contains k = true
      · rw [if_pos hsk, if_pos hsk]
      · have hne : (build_guid_key it == k) = false :=
          beq_eq_false_iff_ne.mpr fun he => hsk (he ▸ hk)
        rw [if_neg hsk, if_neg hsk, List.filter_cons, hne]
        simp only [Bool.false_eq_true, if_false]
    · rw [if_neg hk, List.filter_cons]
      by_cases hek : build_guid_key it = k
      · subst hek
        have h1 : (build_guid_key (annotateItem it) == build_guid_key it) = true := by
          simp [build_guid_key_annotateItem]
        have h3 : ((build_guid_key it :: seen).contains (build_guid_key it)) = true := by
          simp
        rw [List.filter_cons, h1, ih, if_pos h3, if_neg hk]
        simp
      · have h1 : (build_guid_key (annotateItem it) == k) = false := by
          simp [build_guid_key_annotateItem, hek]
        have h2 : ((build_guid_key it == k)) = false := by simp [hek]
        have h4 : ((build_guid_key it :: seen).contains k) = seen.contains k := by
          simp [List.contains_cons, Ne.symm hek]
        rw [List.filter_cons, h1, ih, h4]
        simp only [List.filter_cons, h2, Bool.false_eq_true, if_false]

/-- The dedup loop never emits a key twice, nor one from `seen`. -/
theorem dedupAnnotate_keys_nodup :
    ∀ (l : List Item) (seen : List String),
    ((dedupAnnotate seen l).map build_guid_key).Nodup
    ∧ ∀ k ∈ (dedupAnnotate seen l).map build_guid_key, ¬ (k ∈ seen) := by
  intro l
  induction l with
  | nil => intro seen; simp [dedupAnnotate]
  | cons it rest ih =>
    intro seen
    simp only [dedupAnnotate]
    by_cases hk : seen.contains (build_guid_key it) = true
    · rw [if_pos hk]; exact ih seen
    · rw [if_neg hk]
      obtain ⟨ihn, ihs⟩ := ih (build_guid_key it :: seen)
      refine ⟨?_, ?_⟩
      · simp only [List.map_cons, List.nodup_cons, build_guid_key_annotateItem]
        exact ⟨fun hmem => (ihs _ hmem) (List.mem_cons_self _ _), ihn⟩
      · intro k hmem hks
        simp only [List.map_cons, List.mem_cons, build_guid_key_annotateItem] at hmem
        rcases hmem with rfl | hmem
        · exact absurd (by simpa using hks) (by simpa using hk)
        · exact (ihs k hmem) (List.mem_cons_of_mem _ hks)

/-! ## Claim C1 — dedup keeps exactly the first item of every key group -/

/-- **C1.** For every list of fetched items, the dedup loop keeps exactly one
item out of every group with identical computed guid/link key — the one
encountered first (annotated in passing) — and items with distinct keys all
survive: the keys of the output are pairwise distinct, and for every key `k`
the survivors of key `k` are exactly the first input item with that key. -/
theorem dedup_keeps_first_of_each_key (l : List Item) :
    ((dedupAnnotate [] l).map build_guid_key).Nodup ∧
    ∀ k : String,
      (dedupAnnotate [] l).filter (fun y => build_guid_key y == k)
      = ((l.filter fun x => build_guid_key x == k).take 1).map annotateItem := by
  refine ⟨(dedupAnnotate_keys_nodup l []).1, fun k => ?_⟩
  simpa using dedupAnnotate_filter_key k l []

/-! ## Claim C9 — output capped at MAX_ITEMS -/

/-- **C9.** The final merged output has at most `MAX_ITEMS` items, and the
sorted list is the output followed by the silently dropped tail: truncation
keeps exactly the first `MAX_ITEMS` entries after sorting. -/
theorem merged_output_capped (now : Int) (feeds : List FeedResult) :
    (mergedItems now feeds).length ≤ MAX_ITEMS ∧
    sortItems (dedupAnnotate [] (allItems now feeds)) =
      mergedItems now feeds ++
        (sortItems (dedupAnnotate [] (allItems now feeds))).drop MAX_ITEMS := by
  constructor
  · exact List.length_take_le MAX_ITEMS (sortItems (dedupAnnotate [] (allItems now feeds)))
  · exact (List.take_append_drop MAX_ITEMS _).symm

/-! ## Strip and containment lemmas -/

/-- `dropWhile` is idempotent. -/
theorem dropWhile_dropWhile (p : α → Bool) (l : List α) :
    (l.dropWhile p).dropWhile p = l.dropWhile p := by
  induction l with
  | nil => rfl
  | cons a l ih =>
    by_cases h : p a = true
    · rw [List.dropWhile_cons_of_pos h, ih]
    · rw [List.dropWhile_cons_of_neg h, List.dropWhile_cons_of_neg h]

/-- A list fixed by `dropWhile p` has a head not satisfying `p`. -/
theorem not_head_of_dropWhile_fixed {p : α → Bool} {a : α} {t : List α}
    (h : (a :: t).dropWhile p = a :: t) : p a = false := by
  cases hpa : p a with
  | false => rfl
  | true =>
    exfalso
    rw [List.dropWhile_cons_of_pos hpa] at h
    have hle : (t.dropWhile p).length ≤ t.length :=
      (List.dropWhile_suffix p).sublist.length_le
    rw [h] at hle
    simp at hle

/-- A prefix of a `dropWhile`-fixed list is itself `dropWhile`-fixed. -/
theorem dropWhile_eq_self_of_prefix {p : α → Bool} {w u : List α}
    (hw : w <+: u) (hu : u.dropWhile p = u) : w.dropWhile p = w := by
  cases w with
  | nil => rfl
  | cons a t =>
    obtain ⟨r, hr⟩ := hw
    have ha : p a = false := by
      apply not_head_of_dropWhile_fixed (t := t ++ r)
      rw [← List.cons_append, hr]
      exact hu
    rw [List.dropWhile_cons_of_neg (by simp [ha])]

/-- `stripL l` is a prefix of the left-stripped list. -/
theorem stripL_prefix_dropWhile (l : List Char) : stripL l <+: l.dropWhile isPySpace := by
  have h2 := List.reverse_prefix.mpr
    (List.dropWhile_suffix (l := (l.dropWhile isPySpace).reverse) isPySpace)
  rw [List.reverse_reverse] at h2
  exact h2

/-- The left end of `stripL` is `dropWhile`-fixed. -/
theorem dropWhile_stripL (l : List Char) :
    (stripL l).dropWhile isPySpace = stripL l :=
  dropWhile_eq_self_of_prefix (stripL_prefix_dropWhile l) (dropWhile_dropWhile isPySpace l)

/-- The right end of `stripL` (its reverse) is `dropWhile`-fixed. -/
theorem dropWhile_reverse_stripL (l : List Char) :
    (stripL l).reverse.dropWhile isPySpace = (stripL l).reverse := by
  unfold stripL
  rw [List.reverse_reverse]
  exact dropWhile_dropWhile isPySpace _

/-- `stripL` is idempotent. -/
theorem stripL_idem (l : List Char) : stripL (stripL l) = stripL l := by
  conv_lhs => rw [stripL]
  rw [dropWhile_stripL, dropWhile_reverse_stripL, List.reverse_reverse]

/-- `str.strip()` is idempotent. -/
theorem pyStrip_idem (s : String) : pyStrip (pyStrip s) = pyStrip s := by
  unfold pyStrip
  exact congrArg String.mk (stripL_idem s.data)

/-- `stripL l` is an infix of `l`. -/
theorem stripL_isInfix (l : List Char) : stripL l <:+: l :=
  (stripL_prefix_dropWhile l).isInfix.trans (List.dropWhile_suffix isPySpace).isInfix

/-- Stripping a nonempty `dropWhile`-fixed list appended with a suffix whose
reverse is `dropWhile`-fixed is the identity. -/
theorem stripL_append_of_clean {x m : List Char}
    (hx : x.dropWhile isPySpace = x) (hxne : x ≠ [])
    (hm : m.reverse.dropWhile isPySpace = m.reverse) (hmne : m ≠ []) :
    stripL (x ++ m) = x ++ m := by
  have h1 : (x ++ m).dropWhile isPySpace = x ++ m := by
    cases x with
    | nil => exact absurd rfl hxne
    | cons a t =>
      have ha : isPySpace a = false := not_head_of_dropWhile_fixed hx
      rw [List.cons_append, List.dropWhile_cons_of_neg (by simp [ha])]
  have h2 : ((x ++ m).reverse).dropWhile isPySpace = (x ++ m).reverse := by
    rw [List.reverse_append]
    cases hmr : m.reverse with
    | nil => exact absurd (by simpa using hmr) hmne
    | cons b s =>
      have hb : isPySpace b = false := not_head_of_dropWhile_fixed (hmr ▸ hm)
      rw [List.cons_append, List.dropWhile_cons_of_neg (by simp [hb])]
  rw [stripL, h1, h2, List.reverse_reverse]

/-- Containment extends to the left of an append. -/
theorem containsL_append_left {n m : List Char} (x : List Char)
    (h : containsL n m = true) : containsL n (x ++ m) = true := by
  induction x with
  | nil => simpa using h
  | cons c t ih =>
    rw [List.cons_append, containsL]
    exact Bool.or_eq_true_iff.mpr (Or.inr ih)

/-- Containment extends to the right of an append. -/
theorem containsL_append_right {n x : List Char} (m : List Char)
    (h : containsL n x = true) : containsL n (x ++ m) = true := by
  induction x with
  | nil =>
    rw [containsL] at h
    cases n with
    | nil =>
      cases m with
      | nil => rfl
      | cons c t => rw [List.nil_append, containsL]; simp
    | cons c t => simp [List.isEmpty] at h
  | cons c t ih =>
    rw [containsL] at h
    rw [List.cons_append, containsL]
    rcases Bool.or_eq_true_iff.mp h with h1 | h1
    · refine Bool.or_eq_true_iff.mpr (Or.inl ?_)
      have hp := List.isPrefixOf_iff_prefix.mp h1
      exact List.isPrefixOf_iff_prefix.mpr (hp.trans (List.prefix_append _ _))
    · exact Bool.or_eq_true_iff.mpr (Or.inr (ih h1))

/-- Containment is monotone under infix extension. -/
theorem containsL_infix_mono {n w h : List Char}
    (hinf : w <:+: h) (hc : containsL n w = true) : containsL n h = true := by
  obtain ⟨u, v, rfl⟩ := hinf
  rw [List.append_assoc]
  exact containsL_append_left u (containsL_append_right v hc)

/-- Containment survives stripping, contrapositively: a string without the
marker has no marker after `strip()` either. -/
theorem pyContains_pyStrip_false {d n : String}
    (h : pyContains d n = false) : pyContains (pyStrip d) n = false := by
  cases hc : pyContains (pyStrip d) n with
  | false => rfl
  | true =>
    rw [← h]
    exact (containsL_infix_mono (stripL_isInfix d.data) hc).symm ▸
      containsL_infix_mono (stripL_isInfix d.data) hc

/-- The annotation output always carries a `(Source:` marker. -/
theorem annotateDesc_contains (s : String) :
    pyContains (annotateDesc s) "(Source:" = true := by
  simp only [annotateDesc]
  by_cases h : pyContains (pyStrip s) "(Source:" = true
  · rw [if_pos h]
    exact h
  · rw [if_neg h]
    by_cases he : pyStrip s ≠ ""
    · rw [if_pos he]
      show containsL _ ((pyStrip s).data ++ ("\n(Source: GlobeNewswire)" : String).data) = true
      exact containsL_append_left _ (by decide)
    · rw [if_neg he]
      decide

/-- The annotation output is already stripped. -/
theorem annotateDesc_stripped (s : String) :
    pyStrip (annotateDesc s) = annotateDesc s := by
  simp only [annotateDesc]
  by_cases h : pyContains (pyStrip s) "(Source:" = true
  · rw [if_pos h]
    exact pyStrip_idem s
  · rw [if_neg h]
    by_cases he : pyStrip s ≠ ""
    · rw [if_pos he]
      show (⟨stripL ((pyStrip s).data ++ ("\n(Source: GlobeNewswire)" : String).data)⟩ : String) = _
      have hx : (pyStrip s).data.dropWhile isPySpace = (pyStrip s).data :=
        dropWhile_stripL s.data
      have hxne : (pyStrip s).data ≠ [] := fun hd =>
        he (String.ext (by rw [hd]))
      rw [stripL_append_of_clean hx hxne (by decide) (by decide)]
      rfl
    · rw [if_neg he]
      decide

/-- Annotating an already-stripped, already-marked description is the identity. -/
theorem annotateDesc_of_marked (x : String) (h1 : pyStrip x = x)
    (h2 : pyContains x "(Source:" = true) : annotateDesc x = x := by
  simp only [annotateDesc, h1]
  rw [if_pos h2]

/-! ## Claim C8 — annotation idempotence -/

/-- **C8.** The source-marker annotation is idempotent: annotating a
description twice yields the same string as annotating it once, because the
`(Source: <label>)` marker is only appended when no `(Source:` substring is
present — and the output always contains one. -/
theorem annotation_idempotent (s : String) :
    annotateDesc (annotateDesc s) = annotateDesc s :=
  annotateDesc_of_marked _ (annotateDesc_stripped s) (annotateDesc_contains s)

/-! ## Claim C10 — every serialized description carries the marker -/

/-- Every dedup survivor is an annotated input item. -/
theorem mem_dedupAnnotate {y : Item} :
    ∀ (l : List Item) (seen : List String),
    y ∈ dedupAnnotate seen l → ∃ x ∈ l, y = annotateItem x := by
  intro l
  induction l with
  | nil => intro seen h; simp [dedupAnnotate] at h
  | cons it rest ih =>
    intro seen h
    simp only [dedupAnnotate] at h
    by_cases hk : seen.contains (build_guid_key it) = true
    · rw [if_pos hk] at h
      obtain ⟨x, hx, hy⟩ := ih seen h
      exact ⟨x, List.mem_cons_of_mem _ hx, hy⟩
    · rw [if_neg hk] at h
      rcases List.mem_cons.mp h with rfl | h2
      · exact ⟨it, List.mem_cons_self _ _, rfl⟩
      · obtain ⟨x, hx, hy⟩ := ih _ h2
        exact ⟨x, List.mem_cons_of_mem _ hx, hy⟩

/-- Every item of the merged output is an annotated input item. -/
theorem mem_mergedItems {y : Item} {now : Int} {feeds : List FeedResult}
    (h : y ∈ mergedItems now feeds) :
    ∃ x ∈ allItems now feeds, y = annotateItem x := by
  have h1 : y ∈ sortItems (dedupAnnotate [] (allItems now feeds)) :=
    List.mem_of_mem_take h
  have h2 : y ∈ dedupAnnotate [] (allItems now feeds) := by
    rw [sortItems] at h1
    exact List.mem_mergeSort.mp h1
  exact mem_dedupAnnotate _ [] h2

/-- **C10.** Every item reaching the serialized output has a description
containing `(Source:` — each is an annotated input item — and on an incoming
description lacking that substring the annotation produces exactly the
trimmed description, a newline and `(Source: GlobeNewswire)`, or exactly
`(Source: GlobeNewswire)` when the trimmed description is empty. -/
theorem output_descriptions_marked (now : Int) (feeds : List FeedResult) :
    (∀ it ∈ mergedItems now feeds, pyContains it.description "(Source:" = true) ∧
    (∀ it ∈ mergedItems now feeds, ∃ x ∈ allItems now feeds, it = annotateItem x) ∧
    (∀ d : String, pyContains d "(Source:" = false →
      annotateDesc d =
        if pyStrip d = "" then "(Source: GlobeNewswire)"
        else pyStrip d ++ "\n(Source: GlobeNewswire)") := by
  refine ⟨?_, fun it h => mem_mergedItems h, ?_⟩
  · intro it h
    obtain ⟨x, _, rfl⟩ := mem_mergedItems h
    exact annotateDesc_contains x.description
  · intro d hd
    have hs : pyContains (pyStrip d) "(Source:" = false := pyContains_pyStrip_false hd
    simp only [annotateDesc]
    rw [if_neg (by rw [hs]; simp)]
    by_cases he : pyStrip d = ""
    · rw [if_neg (by simp [he]), if_pos he]
    · rw [if_pos he, if_neg he]

/-! ## Claim C2 — newest-first ordering with stable ties -/

/-- The sort comparison is transitive. -/
theorem itemLE_trans (a b c : Item) :
    itemLE a b → itemLE b c → itemLE a c := by
  simp only [itemLE, decide_eq_true_eq]
  exact fun h1 h2 => le_trans h2 h1

/-- The sort comparison is total. -/
theorem itemLE_total (a b : Item) : itemLE a b || itemLE b a := by
  simp only [itemLE, Bool.or_eq_true, decide_eq_true_eq]
  exact Int.le_total _ _

/-- Stability of the sort: each epoch-class of the sorted list is exactly the
epoch-class of the input, in input order. -/
theorem sortItems_filter_epoch (u : List Item) (v : Int) :
    (sortItems u).filter (fun x => as_epoch x.pubDate == v)
      = u.filter (fun x => as_epoch x.pubDate == v) := by
  have hpw : (u.filter (fun x => as_epoch x.pubDate == v)).Pairwise
      (fun a b => itemLE a b = true) := by
    apply List.pairwise_of_forall_mem_list
    intro a ha b hb
    have ha' := (List.mem_filter.mp ha).2
    have hb' := (List.mem_filter.mp hb).2
    simp only [beq_iff_eq] at ha' hb'
    simp [itemLE, ha', hb']
  have hsub : List.Sublist (u.filter (fun x => as_epoch x.pubDate == v)) (sortItems u) :=
    List.sublist_mergeSort itemLE_trans itemLE_total hpw
      (List.filter_sublist u)
  have h1 : (u.filter (fun x => as_epoch x.pubDate == v)).filter
      (fun x => as_epoch x.pubDate == v) = u.filter (fun x => as_epoch x.pubDate == v) :=
    List.filter_eq_self.mpr fun a ha => (List.mem_filter.mp ha).2
  have h2 : List.Sublist (u.filter (fun x => as_epoch x.pubDate == v))
      ((sortItems u).filter (fun x => as_epoch x.pubDate == v)) := by
    have h3 := hsub.filter (fun x => as_epoch x.pubDate == v)
    rwa [h1] at h3
  have h4 : ((sortItems u).filter (fun x => as_epoch x.pubDate == v)).length
      = (u.filter (fun x => as_epoch x.pubDate == v)).length :=
    ((List.mergeSort_perm u itemLE).filter _).length_eq
  exact (h2.eq_of_length h4.symm).symm

/-- **C2.** In the final output, every adjacent pair is ordered newest first
(`as_epoch` nonincreasing), and items with equal epochs — including every
item with an unparseable date string, all of which get epoch `0` — keep
their encounter order: before truncation each epoch-class of the sorted
list equals the epoch-class of the deduplicated encounter list, and after
truncation it is a sublist of it. -/
theorem output_sorted_newest_first (now : Int) (feeds : List FeedResult) :
    List.Chain' (fun a b => as_epoch b.pubDate ≤ as_epoch a.pubDate)
      (mergedItems now feeds) ∧
    (∀ v : Int,
      (sortItems (dedupAnnotate [] (allItems now feeds))).filter
          (fun x => as_epoch x.pubDate == v)
        = (dedupAnnotate [] (allItems now feeds)).filter
            (fun x => as_epoch x.pubDate == v)) ∧
    (∀ v : Int,
      List.Sublist
        ((mergedItems now feeds).filter (fun x => as_epoch x.pubDate == v))
        ((dedupAnnotate [] (allItems now feeds)).filter
          (fun x => as_epoch x.pubDate == v))) := by
  refine ⟨?_, fun v => sortItems_filter_epoch _ v, fun v => ?_⟩
  · have hs := List.sorted_mergeSort itemLE_trans itemLE_total
      (dedupAnnotate [] (allItems now feeds))
    have hs2 : (mergedItems now feeds).Pairwise (fun a b => itemLE a b = true) :=
      List.Pairwise.sublist (List.take_sublist _ _) hs
    exact (hs2.imp fun h => by simpa [itemLE, decide_eq_true_eq] using h).chain'
  · have h4 : List.Sublist
        ((mergedItems now feeds).filter (fun x => as_epoch x.pubDate == v))
        ((sortItems (dedupAnnotate [] (allItems now feeds))).filter
          (fun x => as_epoch x.pubDate == v)) :=
      (List.take_sublist _ _).filter _
    rwa [sortItems_filter_epoch] at h4

/-! ## Claim C4 — guid resolution order and non-empty dedup key -/

/-- The spec's guid resolution order: explicit guid, else link, else title
concatenated with the publish-time string. -/
def GuidResolved (expl link title pubs guid : String) : Prop :=
  (expl ≠ "" ∧ guid = expl) ∨
  (expl = "" ∧ link ≠ "" ∧ guid = link) ∨
  (expl = "" ∧ link = "" ∧ guid = title ++ pubs)

/-- `hex8` always renders eight characters. -/
theorem hex8_length (n : Nat) : (hex8 n).length = 8 := by
  simp [hex8, String.length]

/-- A SHA-1 hex digest always has forty characters. -/
theorem sha1Hex_length (msg : List Nat) : (sha1Hex msg).length = 40 := by
  rw [sha1Hex]
  simp [String.length_append, hex8_length]

/-- **C4.** For every parsed entry of either shape, the guid is resolved as
explicit guid, else link, else title concatenated with the entry's
publish-time string (an Atom entry has no guid field, so its resolution
starts at the link), and the computed deduplication key — a SHA-1 hex
digest — is never empty. -/
theorem guid_resolution_order :
    (∀ (now : Int) (e : XmlTree),
      GuidResolved (pyStrip (findtextOr e "guid")) (pyStrip (findtextOr e "link"))
        (pyStrip (findtextOr e "title")) (pyStrip (findtextOr e "pubDate"))
        (rssItemOf now e).guid) ∧
    (∀ (entry : XmlTree) (it : Item), atomEntryItem entry = .ok it →
      GuidResolved "" it.link (pyStrip (findtextOr entry (atomTag "title")))
        (pyStrip (findtextOr entry (atomTag "updated"))) it.guid) ∧
    (∀ it : Item, (build_guid_key it).length = 40 ∧ build_guid_key it ≠ "") := by
  refine ⟨?_, ?_, ?_⟩
  · intro now e
    show GuidResolved _ _ _ _
      (if pyStrip (findtextOr e "guid") ≠ "" then pyStrip (findtextOr e "guid")
       else if pyStrip (findtextOr e "link") ≠ "" then pyStrip (findtextOr e "link")
       else pyStrip (findtextOr e "title") ++ pyStrip (findtextOr e "pubDate"))
    by_cases hg : pyStrip (findtextOr e "guid") ≠ ""
    · rw [if_pos hg]
      exact Or.inl ⟨hg, rfl⟩
    · rw [if_neg hg]
      push_neg at hg
      by_cases hl : pyStrip (findtextOr e "link") ≠ ""
      · rw [if_pos hl]
        exact Or.inr (Or.inl ⟨hg, hl, rfl⟩)
      · rw [if_neg hl]
        push_neg at hl
        exact Or.inr (Or.inr ⟨hg, hl, rfl⟩)
  · intro entry it h
    rw [atomEntryItem] at h
    cases hl : atomLink entry with
    | error e0 => rw [hl] at h; exact absurd h (by simp)
    | ok link =>
      rw [hl] at h
      have hit := Except.ok.inj h
      subst hit
      by_cases hlne : link ≠ ""
      · rw [if_pos hlne]
        exact Or.inr (Or.inl ⟨rfl, hlne, rfl⟩)
      · rw [if_neg hlne]
        push_neg at hlne
        exact Or.inr (Or.inr ⟨rfl, hlne, rfl⟩)
  · intro it
    refine ⟨sha1Hex_length _, fun h => ?_⟩
    have := sha1Hex_length (utf8Bytes
      (if it.guid ≠ "" then it.guid
       else if it.link ≠ "" then it.link
       else it.title ++ it.pubDate))
    rw [build_guid_key] at h
    rw [h] at this
    simp at this

/-- **C4 witness.** The guid resolution theorem applied to a concrete Atom
entry whose `atomEntryItem` call succeeds. -/
theorem guid_resolution_order_witness :
    atomEntryItem (XmlTree.elem (atomTag "entry") [] none
        [XmlTree.elem (atomTag "link") [("href", "http://x/1")] none []])
      = .ok { title := "", link := "http://x/1", pubDate := "",
              description := "", guid := "http://x/1" } ∧
    GuidResolved "" "http://x/1" "" ""
      ({ title := "", link := "http://x/1", pubDate := "",
         description := "", guid := "http://x/1" } : Item).guid := by
  refine ⟨rfl, ?_⟩
  have h := guid_resolution_order.2.1
    (XmlTree.elem (atomTag "entry") [] none
      [XmlTree.elem (atomTag "link") [("href", "http://x/1")] none []])
    { title := "", link := "http://x/1", pubDate := "",
      description := "", guid := "http://x/1" } rfl
  simpa using h

/-! ## Claim C5 — titles never fall back to the link (corrected) -/

/-- An RSS `item` element with a link but no title. -/
def titleLessItemElem : XmlTree :=
  .elem "item" [] none
    [.elem "link" [] (some "http://a/1") [],
     .elem "pubDate" [] (some "Mon, 06 Jan 2025 10:30:00 GMT") []]

/-- **C5 counterexample.** An entry with no title and a non-empty link is
parsed with an *empty* title: the title does not fall back to the link. -/
theorem title_link_fallback_counterexample :
    findChild titleLessItemElem "title" = none ∧
    (rssItemOf 0 titleLessItemElem).link = "http://a/1" ∧
    (rssItemOf 0 titleLessItemElem).title = "" ∧
    (rssItemOf 0 titleLessItemElem).title ≠ (rssItemOf 0 titleLessItemElem).link :=
  ⟨rfl, rfl, rfl, by decide⟩

/-- **C5 (amended).** Every parsed item's title is (non-null) text — the
trimmed title text of the entry, and the empty string when the entry has no
title element; it never falls back to the link. -/
theorem title_text_total :
    (∀ (now : Int) (e : XmlTree),
      (rssItemOf now e).title = pyStrip (findtextOr e "title")) ∧
    (∀ (now : Int) (e : XmlTree), findChild e "title" = none →
      (rssItemOf now e).title = "") ∧
    (∀ (entry : XmlTree) (it : Item), atomEntryItem entry = .ok it →
      it.title = pyStrip (findtextOr entry (atomTag "title"))) := by
  refine ⟨fun now e => rfl, ?_, ?_⟩
  · intro now e h
    show pyStrip (findtextOr e "title") = ""
    rw [findtextOr, h]
    rfl
  · intro entry it h
    rw [atomEntryItem] at h
    cases hl : atomLink entry with
    | error e0 => rw [hl] at h; exact absurd h (by simp)
    | ok link =>
      rw [hl] at h
      have hit := Except.ok.inj h
      subst hit
      rfl

/-- **C5 witness.** The amended title theorem applied at concrete inputs,
discharging its hypotheses. -/
theorem title_text_total_witness :
    (rssItemOf 0 titleLessItemElem).title = "" ∧
    ({ title := "", link := "http://x/1", pubDate := "", description := "",
       guid := "http://x/1" } : Item).title
      = pyStrip (findtextOr (XmlTree.elem (atomTag "entry") [] none
          [XmlTree.elem (atomTag "link") [("href", "http://x/1")] none []])
          (atomTag "title")) := by
  refine ⟨title_text_total.2.1 0 titleLessItemElem rfl, ?_⟩
  exact title_text_total.2.2
    (XmlTree.elem (atomTag "entry") [] none
      [XmlTree.elem (atomTag "link") [("href", "http://x/1")] none []])
    { title := "", link := "http://x/1", pubDate := "", description := "",
      guid := "http://x/1" } rfl

/-! ## Claim C3 — wall-clock substitution for missing dates (corrected) -/

/-- An Atom document whose single entry has no `updated` element. -/
def atomNoUpdatedDoc : XmlTree :=
  .elem "feed" [] none
    [.elem (atomTag "entry") [] none
      [.elem (atomTag "title") [] (some "T") [],
       .elem (atomTag "link") [("href", "http://x/1")] none []]]

/-- **C3 counterexample.** An Atom entry with no `updated` field is parsed
with an *empty* publish date, not the synthesized current time: the
substitution happens only in the RSS branch. -/
theorem missing_date_substitution_counterexample :
    parse_rss 0 (some atomNoUpdatedDoc)
      = .ok [{ title := "T", link := "http://x/1", pubDate := "",
               description := "", guid := "http://x/1" }] ∧
    ("" : String) ≠ formatdate 0 :=
  ⟨rfl, by decide⟩

/-- **C3 (amended).** In the RSS branch, an entry whose `pubDate` is absent or
whitespace-only gets the current wall-clock time substituted; a non-empty
but unparseable date string is kept verbatim (it sorts as epoch `0`); the
entry still yields an item and parsing an RSS document never raises.
(Atom entries with no `updated` keep an empty date, per the
counterexample.) -/
theorem rss_empty_pubdate_substitution (now : Int) (e : XmlTree) :
    (pyStrip (findtextOr e "pubDate") = "" →
      (rssItemOf now e).pubDate = formatdate now) ∧
    (pyStrip (findtextOr e "pubDate") ≠ "" →
      (rssItemOf now e).pubDate = pyStrip (findtextOr e "pubDate")) ∧
    (∀ (root chan : XmlTree), findChild root "channel" = some chan →
      parse_rss now (some root)
        = .ok ((childrenWithTag chan "item").map (rssItemOf now))) := by
  refine ⟨?_, ?_, ?_⟩
  · intro h
    show (if pyStrip (findtextOr e "pubDate") = "" then formatdate now
          else pyStrip (findtextOr e "pubDate")) = formatdate now
    rw [if_pos h]
  · intro h
    show (if pyStrip (findtextOr e "pubDate") = "" then formatdate now
          else pyStrip (findtextOr e "pubDate")) = pyStrip (findtextOr e "pubDate")
    rw [if_neg h]
  · intro root chan h
    rw [parse_rss, h]

/-- **C3 witness.** The amended substitution theorem at concrete inputs:
a date-less RSS item gets `formatdate now`, a dated one keeps its date, and
an RSS document parses to its mapped items. -/
theorem rss_empty_pubdate_substitution_witness :
    (rssItemOf 0 (XmlTree.elem "item" [] none
        [XmlTree.elem "title" [] (some "T") []])).pubDate = formatdate 0 ∧
    (rssItemOf 0 titleLessItemElem).pubDate = "Mon, 06 Jan 2025 10:30:00 GMT" ∧
    parse_rss 0 (some (XmlTree.elem "rss" [] none
        [XmlTree.elem "channel" [] none [titleLessItemElem]]))
      = .ok ((childrenWithTag (XmlTree.elem "channel" [] none [titleLessItemElem])
          "item").map (rssItemOf 0)) := by
  refine ⟨?_, ?_, ?_⟩
  · exact (rss_empty_pubdate_substitution 0 (XmlTree.elem "item" [] none
      [XmlTree.elem "title" [] (some "T") []])).1 rfl
  · have h := (rss_empty_pubdate_substitution 0 titleLessItemElem).2.1 (by decide)
    rw [h]
    rfl
  · exact (rss_empty_pubdate_substitution 0 titleLessItemElem).2.2
      (XmlTree.elem "rss" [] none
        [XmlTree.elem "channel" [] none [titleLessItemElem]])
      (XmlTree.elem "channel" [] none [titleLessItemElem]) rfl

/-! ## Claim C6 — parse resilience (corrected) -/

/-- An Atom document whose entry carries a `link` element without `href`. -/
def hrefLessLinkDoc : XmlTree :=
  .elem "feed" [] none
    [.elem (atomTag "entry") [] none
      [.elem (atomTag "link") [("rel", "alternate")] none []]]

/-- **C6 counterexample.** `parse_rss` *can* raise to its caller: a
well-formed Atom document whose entry has a `link` element with no `href`
attribute makes `link_el.get("href")` return `None` and `.strip()` raise
`AttributeError`. -/
theorem parse_rss_raises_counterexample :
    parse_rss 0 (some hrefLessLinkDoc) = .error .attributeError := rfl

/-- How one feed contributes to the concatenation, split out of `allItems`. -/
theorem allItems_append_middle (now : Int) (pre post : List FeedResult)
    (fr : FeedResult) :
    allItems now (pre ++ fr :: post)
      = allItems now pre ++ (feedItems now fr ++ allItems now post) := by
  simp [allItems]

/-- **C6 (amended).** An unparseable document (an `ET.ParseError`) yields the
empty item list; an RSS document with a `channel` always parses without
raising; and a feed that is malformed — or whose parse raises — contributes
nothing and leaves the items of every other feed unchanged.  (Contrary to
the claim as stated, `parse_rss` can raise on *well-formed* input, per the
counterexample; `main`'s blanket `except` then drops that feed only.) -/
theorem parse_resilience :
    (∀ now : Int, parse_rss now none = .ok []) ∧
    (∀ (now : Int) (root chan : XmlTree), findChild root "channel" = some chan →
      ∃ its, parse_rss now (some root) = .ok its) ∧
    (∀ (now : Int) (pre post : List FeedResult),
      mergedItems now (pre ++ FeedResult.fetched none :: post)
        = mergedItems now (pre ++ post)) ∧
    (∀ (now : Int) (pre post : List FeedResult) (doc : Option XmlTree) (e : PyErr),
      parse_rss now doc = .error e →
      mergedItems now (pre ++ FeedResult.fetched doc :: post)
        = mergedItems now (pre ++ post)) := by
  refine ⟨fun now => rfl, ?_, ?_, ?_⟩
  · intro now root chan h
    exact ⟨_, by rw [parse_rss, h]⟩
  · intro now pre post
    rw [mergedItems, mergedItems, allItems_append_middle]
    have h : feedItems now (FeedResult.fetched none) = [] := rfl
    rw [h, List.nil_append]
    simp [allItems]
  · intro now pre post doc e h
    rw [mergedItems, mergedItems, allItems_append_middle]
    have h2 : feedItems now (FeedResult.fetched doc) = [] := by
      rw [feedItems, h]
    rw [h2, List.nil_append]
    simp [allItems]

/-- **C6 witness.** The resilience theorem at concrete inputs: malformed and
raising feeds inserted between two good feeds change nothing. -/
theorem parse_resilience_witness :
    parse_rss 0 none = .ok [] ∧
    (∃ its, parse_rss 0 (some (XmlTree.elem "rss" [] none
        [XmlTree.elem "channel" [] none [titleLessItemElem]])) = .ok its) ∧
    mergedItems 0 ([FeedResult.fetched (some atomNoUpdatedDoc)] ++
        FeedResult.fetched none ::
          [FeedResult.fetched (some (XmlTree.elem "rss" [] none
            [XmlTree.elem "channel" [] none [titleLessItemElem]]))])
      = mergedItems 0 ([FeedResult.fetched (some atomNoUpdatedDoc)] ++
          [FeedResult.fetched (some (XmlTree.elem "rss" [] none
            [XmlTree.elem "channel" [] none [titleLessItemElem]]))]) ∧
    mergedItems 0 ([] ++ FeedResult.fetched (some hrefLessLinkDoc) ::
        [FeedResult.fetched (some atomNoUpdatedDoc)])
      = mergedItems 0 ([] ++ [FeedResult.fetched (some atomNoUpdatedDoc)]) := by
  obtain ⟨h1, h2, h3, h4⟩ := parse_resilience
  exact ⟨h1 0,
    h2 0 (XmlTree.elem "rss" [] none
      [XmlTree.elem "channel" [] none [titleLessItemElem]])
      (XmlTree.elem "channel" [] none [titleLessItemElem]) rfl,
    h3 0 [FeedResult.fetched (some atomNoUpdatedDoc)]
      [FeedResult.fetched (some (XmlTree.elem "rss" [] none
        [XmlTree.elem "channel" [] none [titleLessItemElem]]))],
    h4 0 [] [FeedResult.fetched (some atomNoUpdatedDoc)]
      (some hrefLessLinkDoc) PyErr.attributeError rfl⟩

/-! ## Claim C7 — byte-identical reruns (corrected) -/

/-- An RSS document whose single item has no `pubDate`. -/
def noDateRssDoc : XmlTree :=
  .elem "rss" [] none
    [.elem "channel" [] none
      [.elem "item" [] none
        [.elem "title" [] (some "T") [],
         .elem "link" [] (some "http://a/1") []]]]

/-- The single merged item of `noDateRssDoc` when the run happens at `now`. -/
def noDateItemAt (now : Int) : Item :=
  { title := "T", link := "http://a/1", pubDate := formatdate now,
    description := "(Source: GlobeNewswire)", guid := "http://a/1" }

/-- **C7 counterexample.** Two runs over identical feed content at different
wall-clock times produce different item lists: the item with no `pubDate`
carries the synthesized time of its own run. -/
theorem reruns_differ_counterexample :
    mergedItems 0 [FeedResult.fetched (some noDateRssDoc)]
      ≠ mergedItems 86400 [FeedResult.fetched (some noDateRssDoc)] := by
  have h0 : mergedItems 0 [FeedResult.fetched (some noDateRssDoc)]
      = [noDateItemAt 0] := by
    rw [mergedItems]
    have hd : dedupAnnotate [] (allItems 0 [FeedResult.fetched (some noDateRssDoc)])
        = [noDateItemAt 0] := by decide
    rw [hd, sortItems, List.mergeSort_singleton]
    rfl
  have h1 : mergedItems 86400 [FeedResult.fetched (some noDateRssDoc)]
      = [noDateItemAt 86400] := by
    rw [mergedItems]
    have hd : dedupAnnotate []
        (allItems 86400 [FeedResult.fetched (some noDateRssDoc)])
        = [noDateItemAt 86400] := by decide
    rw [hd, sortItems, List.mergeSort_singleton]
    rfl
  rw [h0, h1]
  decide

/-- A feed whose contribution cannot depend on the wall clock: it failed, or
is malformed, or is an Atom document, or an RSS document all of whose items
have a non-empty trimmed `pubDate`. -/
def nowFree : FeedResult → Bool
  | .fetchFailure => true
  | .fetched none => true
  | .fetched (some root) =>
    match findChild root "channel" with
    | some chan =>
      (childrenWithTag chan "item").all fun e =>
        pyStrip (findtextOr e "pubDate") != ""
    | none => true

/-- An RSS item with a non-empty date is parsed identically at any wall-clock
time. -/
theorem rssItemOf_now_free {e : XmlTree}
    (h : pyStrip (findtextOr e "pubDate") ≠ "") (t1 t2 : Int) :
    rssItemOf t1 e = rssItemOf t2 e := by
  simp only [rssItemOf]
  rw [if_neg h, if_neg h]

/-- `parse_rss` ignores the wall clock on a `nowFree` fetched document. -/
theorem parse_rss_now_free {root : XmlTree} (t1 t2 : Int)
    (h : nowFree (.fetched (some root)) = true) :
    parse_rss t1 (some root) = parse_rss t2 (some root) := by
  rw [parse_rss, parse_rss]
  cases hc : findChild root "channel" with
  | none => rfl
  | some chan =>
    rw [nowFree] at h
    rw [hc] at h
    have h2 : ((childrenWithTag chan "item").all fun e =>
        pyStrip (findtextOr e "pubDate") != "") = true := h
    have hmap : (childrenWithTag chan "item").map (rssItemOf t1)
        = (childrenWithTag chan "item").map (rssItemOf t2) := by
      apply List.map_congr_left
      intro e he
      have he' := List.all_eq_true.mp h2 e he
      exact rssItemOf_now_free (by simpa using he') t1 t2
    exact congrArg Except.ok hmap

/-- A `nowFree` feed contributes the same items at any wall-clock time. -/
theorem feedItems_now_free {fr : FeedResult} (h : nowFree fr = true)
    (t1 t2 : Int) : feedItems t1 fr = feedItems t2 fr := by
  cases fr with
  | fetchFailure => rfl
  | fetched doc =>
    cases doc with
    | none => rfl
    | some root =>
      rw [feedItems, feedItems, parse_rss_now_free t1 t2 h]

/-- With every feed `nowFree`, the collected items agree across times. -/
theorem allItems_now_free (t1 t2 : Int) :
    ∀ feeds : List FeedResult, (∀ fr ∈ feeds, nowFree fr = true) →
    allItems t1 feeds = allItems t2 feeds := by
  intro feeds
  induction feeds with
  | nil => intro _; simp only [allItems, List.map_nil]
  | cons fr rest ih =>
    intro h
    simp only [allItems, List.map_cons, List.flatten_cons]
    rw [feedItems_now_free (h fr (List.mem_cons_self _ _)) t1 t2]
    have ih2 := ih fun fr2 hm => h fr2 (List.mem_cons_of_mem _ hm)
    simp only [allItems] at ih2
    rw [ih2]

/-- **C7 (amended).** Two runs over identical feed content produce identical
item lists (hence byte-identical serialized items, `lastBuildDate` apart)
*provided* no RSS item's `pubDate` is absent: the current-time substitution
for a missing date is the one wall-clock dependence, per the
counterexample. -/
theorem reruns_agree_when_dates_present (t1 t2 : Int) (feeds : List FeedResult)
    (h : ∀ fr ∈ feeds, nowFree fr = true) :
    mergedItems t1 feeds = mergedItems t2 feeds := by
  rw [mergedItems, mergedItems, allItems_now_free t1 t2 feeds h]

/-- **C7 witness.** Two runs a day apart over a fully dated feed agree. -/
theorem reruns_agree_witness :
    mergedItems 0 [FeedResult.fetched (some (XmlTree.elem "rss" [] none
        [XmlTree.elem "channel" [] none [titleLessItemElem]]))]
      = mergedItems 86400 [FeedResult.fetched (some (XmlTree.elem "rss" [] none
        [XmlTree.elem "channel" [] none [titleLessItemElem]]))] :=
  reruns_agree_when_dates_present 0 86400 _ (by decide)

/-- **C10 witness.** The marker theorem applied to a concrete run — the one
output item is marked and is an annotated input item — and to a concrete
unmarked description. -/
theorem output_descriptions_marked_witness :
    pyContains (noDateItemAt 0).description "(Source:" = true ∧
    (∃ x ∈ allItems 0 [FeedResult.fetched (some noDateRssDoc)],
      noDateItemAt 0 = annotateItem x) ∧
    pyContains "x" "(Source:" = false ∧
    annotateDesc "x" =
      (if pyStrip "x" = "" then "(Source: GlobeNewswire)"
       else pyStrip "x" ++ "\n(Source: GlobeNewswire)") := by
  obtain ⟨h1, h2, h3⟩ :=
    output_descriptions_marked 0 [FeedResult.fetched (some noDateRssDoc)]
  have hm : mergedItems 0 [FeedResult.fetched (some noDateRssDoc)]
      = [noDateItemAt 0] := by
    rw [mergedItems]
    have hd : dedupAnnotate [] (allItems 0 [FeedResult.fetched (some noDateRssDoc)])
        = [noDateItemAt 0] := by decide
    rw [hd, sortItems, List.mergeSort_singleton]
    rfl
  have hmem : noDateItemAt 0 ∈ mergedItems 0 [FeedResult.fetched (some noDateRssDoc)] := by
    rw [hm]
    exact List.mem_cons_self _ _
  exact ⟨h1 _ hmem, h2 _ hmem, by decide, h3 "x" (by decide)⟩

end MergeRss
